import Mathlib

/-!
# avr-avogadro: the for-loop example program and the `McuWrapper` binding layer

Two source files are embedded here.

* `examples/02-for-loop.c`: a C program over two 8-bit unsigned locals.  The
  locals are natural numbers, every store reduces modulo `2 ^ 8`.
* `ui/src/McuWrapper.cpp`: a C++ class whose methods forward to the `extern "C"`
  functions of the emulator backend.
-/

namespace ForLoop

/-- The two locals of `main`: `volatile unsigned char a` and `unsigned char i`. -/
structure Locals where
  a : Nat
  i : Nat
  deriving DecidableEq

/-- Number of values of an `unsigned char`. -/
def ucharRange : Nat := 256

/-- Locals after the two initialisers `a = 42` and `i = 0`. -/
def start : Locals := { a := 42 % ucharRange, i := 0 % ucharRange }

/-- The expression `a + i` of line 5: both operands are promoted to `int`, so the
addition itself does not wrap. -/
def sumInt (s : Locals) : Nat := s.a + s.i

/-- One pass through the loop: the assignment `a = a + i` stores the `int` sum
back into an `unsigned char`, then `++i` increments the `unsigned char` counter. -/
def body (s : Locals) : Locals :=
  { a := sumInt s % ucharRange, i := (s.i + 1) % ucharRange }

/-- The loop `for (unsigned char i = 0; i < 100; ++i) { a = a + i; }` run from the
locals `s`.  Every evaluation of the test `i < 100` uses one unit of fuel.  The
result is the list of locals with which the body was entered, in order, and the
locals on exit; `none` when the fuel runs out before the test fails. -/
def forLoop : Nat → Locals → Option (List Locals × Locals)
  | 0, _ => none
  | fuel + 1, s =>
    if s.i < 100 then
      (forLoop fuel (body s)).map (fun r => (s :: r.1, r.2))
    else
      some ([], s)

/-- The function `main`: run the loop from the initial locals and `return a`. -/
def main (fuel : Nat) : Option Nat :=
  (forLoop fuel start).map (fun r => r.2.a)

/-- Locals after exactly `k` passes through the loop, the test `i < 100` having
held before each of them; `none` when the loop is left before the `k`-th pass. -/
def afterIterations : Nat → Locals → Option Locals
  | 0, s => some s
  | k + 1, s => if s.i < 100 then afterIterations k (body s) else none

end ForLoop

namespace Avogadro

/-! ## C scalar types

`char` is a signed 8-bit integer, `unsigned char` an unsigned one, `short` a signed
16-bit integer.  Passing a value across a signature of the other signedness keeps
its bit pattern. -/

/-- The `unsigned char` with the same bit pattern as the `char` (or any integer) `c`. -/
def toUChar (c : Int) : Nat := (c % 256).toNat

/-- The `char` with the same bit pattern as the `unsigned char` `n`. -/
def toChar (n : Nat) : Int := if n % 256 < 128 then ((n % 256 : Nat) : Int) else ((n % 256 : Nat) : Int) - 256

/-- The 16-bit address with the same bit pattern as the `short` `s`. -/
def toUShort (s : Int) : Nat := (s % 65536).toNat

/-- The `short` with the same bit pattern as the 16-bit address `n`. -/
def toShort (n : Nat) : Int :=
  if n % 65536 < 32768 then ((n % 65536 : Nat) : Int) else ((n % 65536 : Nat) : Int) - 65536

/-- Effect of `std::vector<char>::resize(n)`: the vector is cut to `n` elements, or
extended to `n` elements with value-initialised (zero) characters. -/
def resize (buffer : List Int) (n : Nat) : List Int :=
  buffer.take n ++ List.replicate (n - buffer.length) 0

/-- Effect of writing the items `data` through a pointer to the first of `cells`:
the leading cells are replaced, the cells behind them keep their content. -/
def store {α : Type} (cells data : List α) : List α :=
  data ++ cells.drop data.length

/-! ## The emulator core behind the `extern "C"` interface -/

/-- Modelled from the spec: the error kinds of section 7; the code that raises them
is the emulator core, which is outside the two source files. -/
inductive Error
  | InvalidOpcode
  | TruncatedInstruction
  | OutOfRange
  | ImageTooLarge
  | ReadFailure
  deriving DecidableEq

/-- Modelled from the spec: the machine state of section 3, which the emulator core
keeps behind the `void* mcu` handle: register file, 16-bit program counter and stack
pointer, flags byte and flat memory.  The invariant of the register file, that every
index is addressable by the single-byte identifier, is the field `addressable`: the
interface passes the identifier as a `char`, whose non-negative values are 0 to 127. -/
structure MachineState where
  registers : List Nat
  programCounter : Nat
  stackPointer : Nat
  flags : Nat
  memory : List Nat
  addressable : registers.length ≤ 128

/-- Modelled from the spec: a decoded instruction of section 3: opcode identifier,
operands and encoded byte length. -/
structure Instruction where
  opcode : Nat
  operands : List Nat
  length : Nat
  deriving DecidableEq

/-- Modelled from the spec: everything the target architecture fixes and the sources
do not contain (section 9 lists the opcode table and instruction semantics as
absent): the decoder and executor of sections 4.2 and 4.3, the disassembler of 4.4,
and the load origin and default top of stack of 4.5.  It is a parameter of the
model. -/
structure Architecture where
  decode : List Nat → Nat → Except Error Instruction
  execute : Instruction → MachineState → Except Error MachineState
  disassemble : Instruction → List Nat
  origin : Nat
  topOfStack : Nat

/-- Modelled from the spec: section 4.1, write a single register by identifier.  The
identifier is checked against the bounds of the register file: an identifier that is
negative or not below the register count fails with `OutOfRange`, without wrapping or
aliasing; the value is stored as a byte. -/
def MachineState.writeRegister (m : MachineState) (id : Int) (value : Nat) :
    Except Error MachineState :=
  if 0 ≤ id ∧ id < m.registers.length then
    .ok { m with
      registers := m.registers.set id.toNat (value % 256)
      addressable := by rw [List.length_set]; exact m.addressable }
  else
    .error .OutOfRange

/-- Modelled from the spec: section 4.1, bulk write of the full register array from a
caller buffer. -/
def MachineState.writeRegisters (m : MachineState) (buffer : List Nat) : MachineState :=
  { m with
    registers := store m.registers ((buffer.take m.registers.length).map (fun b => b % 256))
    addressable := by
      have h := m.addressable
      simp only [store, List.length_append, List.length_drop, List.length_map,
        List.length_take]
      omega }

/-- Modelled from the spec: section 4.6, the step controller: decode at the current
program counter, then execute, propagating either failure. -/
def StepController.step (arch : Architecture) (m : MachineState) :
    Except Error MachineState :=
  match arch.decode m.memory m.programCounter with
  | .ok instruction => arch.execute instruction m
  | .error e => .error e

/-- Modelled from the spec: section 4.5, the loader: an image that cannot be obtained
fails with `ReadFailure`, an image that exceeds the memory available from the origin
fails with `ImageTooLarge`; otherwise the image is copied to the origin and program
counter and stack pointer are reset. -/
def Loader.load (arch : Architecture) (image : Option (List Nat)) (m : MachineState) :
    Except Error MachineState :=
  match image with
  | none => .error .ReadFailure
  | some bytes =>
    if arch.origin + bytes.length ≤ m.memory.length then
      .ok { m with
        memory := m.memory.take arch.origin ++ store (m.memory.drop arch.origin) bytes
        programCounter := arch.origin
        stackPointer := arch.topOfStack }
    else
      .error .ImageTooLarge

/-- A machine handle, the `void* mcu` of the interface. -/
abbrev Handle := Nat

/-- One call of a function of the `extern "C"` block of `McuWrapper.cpp`, with the
handle and the scalar arguments it was given. -/
inductive BackendCall
  | mcu_step (mcu : Handle)
  | mcu_get_register_array (mcu : Handle)
  | mcu_set_register_array (mcu : Handle) (buffer : List Nat)
  | mcu_set_register (mcu : Handle) (registerId value : Int)
  | mcu_get_program_counter (mcu : Handle)
  | mcu_set_program_counter (mcu : Handle) (value : Int)
  | mcu_get_stack_pointer (mcu : Handle)
  | mcu_get_current_instruction (mcu : Handle)
  | mcu_display_current_instruction (mcu : Handle) (size : Nat)
  | mcu_load_file (mcu : Handle) (filename : String)
  | mcu_get_memory_size (mcu : Handle)
  | mcu_get_memory_data (mcu : Handle) (size : Nat)
  | mcu_get_flags (mcu : Handle)
  | mcu_set_flags (mcu : Handle) (flags : Nat)
  deriving DecidableEq

/-- Everything outside the wrapper object: the architecture the backend emulates, the
machine behind every handle, the image files that can be read by name, and the
backend calls made so far, oldest first. -/
structure World where
  arch : Architecture
  machines : Handle → MachineState
  files : String → Option (List Nat)
  calls : List BackendCall

/-- The world with one more backend call on record. -/
def World.record (w : World) (c : BackendCall) : World :=
  { w with calls := w.calls ++ [c] }

/-- The world in which the machine behind `mcu` is `m`. -/
def World.setMachine (w : World) (mcu : Handle) (m : MachineState) : World :=
  { w with machines := fun h => if h = mcu then m else w.machines h }

/-! ## The `extern "C"` functions

Their signatures are those declared in `McuWrapper.cpp`; a `void` function yields
`Unit`.  Each takes the world and returns it next to its C result.  A call of a
function that the spec lets fail either returns normally, `.ok`, or ends in the
failure condition the backend raises, `.error`; the declared result type is that of
the normal return. -/

/-- Modelled from the spec: `void mcu_step(void* mcu)`, whose body is not in the
sources: one cycle of the step controller on the machine behind the handle.  A
failure of the decoder or of the executor is surfaced as the result of the step,
unchanged, and the machine stays as it was. -/
def mcu_step (mcu : Handle) (w : World) : Except Error Unit × World :=
  let w1 := w.record (.mcu_step mcu)
  match StepController.step w1.arch (w1.machines mcu) with
  | .ok m => (.ok (), w1.setMachine mcu m)
  | .error e => (.error e, w1)

/-- Modelled from the spec: `void mcu_get_register_array(void* mcu, const unsigned
char* buffer)`, whose body is not in the sources: the register array is written to
the caller buffer.  The result is the content of the buffer afterwards. -/
def mcu_get_register_array (mcu : Handle) (buffer : List Nat) (w : World) :
    List Nat × World :=
  let w1 := w.record (.mcu_get_register_array mcu)
  (store buffer (w1.machines mcu).registers, w1)

/-- Modelled from the spec: `void mcu_set_register_array(void* mcu, const unsigned
char* buffer)`, whose body is not in the sources: bulk write of the register array. -/
def mcu_set_register_array (mcu : Handle) (buffer : List Nat) (w : World) : Unit × World :=
  let w1 := w.record (.mcu_set_register_array mcu buffer)
  ((), w1.setMachine mcu ((w1.machines mcu).writeRegisters buffer))

/-- Modelled from the spec: `void mcu_set_register(void* mcu, char registerId, char
value)`, whose body is not in the sources: the bounds-checked single register write,
the value being stored with its bit pattern.  An `OutOfRange` failure is the result of
the call and leaves the machine state unchanged. -/
def mcu_set_register (mcu : Handle) (registerId value : Int) (w : World) :
    Except Error Unit × World :=
  let w1 := w.record (.mcu_set_register mcu registerId value)
  match (w1.machines mcu).writeRegister registerId (toUChar value) with
  | .ok m => (.ok (), w1.setMachine mcu m)
  | .error e => (.error e, w1)

/-- Modelled from the spec: `short mcu_get_program_counter(void* mcu)`, whose body is
not in the sources. -/
def mcu_get_program_counter (mcu : Handle) (w : World) : Int × World :=
  let w1 := w.record (.mcu_get_program_counter mcu)
  (toShort (w1.machines mcu).programCounter, w1)

/-- Modelled from the spec: `void mcu_set_program_counter(void* mcu, short value)`,
whose body is not in the sources; the write is unchecked. -/
def mcu_set_program_counter (mcu : Handle) (value : Int) (w : World) : Unit × World :=
  let w1 := w.record (.mcu_set_program_counter mcu value)
  ((), w1.setMachine mcu { w1.machines mcu with programCounter := toUShort value })

/-- Modelled from the spec: `short mcu_get_stack_pointer(void* mcu)`, whose body is
not in the sources. -/
def mcu_get_stack_pointer (mcu : Handle) (w : World) : Int × World :=
  let w1 := w.record (.mcu_get_stack_pointer mcu)
  (toShort (w1.machines mcu).stackPointer, w1)

/-- Modelled from the spec: `short mcu_get_current_instruction(void* mcu)`, whose body
is not in the sources: the identifier of the instruction decoded at the program
counter and not yet executed; a failed decode is propagated. -/
def mcu_get_current_instruction (mcu : Handle) (w : World) : Except Error Int × World :=
  let w1 := w.record (.mcu_get_current_instruction mcu)
  match w1.arch.decode (w1.machines mcu).memory (w1.machines mcu).programCounter with
  | .ok instruction => (.ok (toShort instruction.opcode), w1)
  | .error e => (.error e, w1)

/-- Modelled from the spec: `void mcu_display_current_instruction(void* mcu, const
char* buffer, size_t size)`, whose body is not in the sources: at most `size`
characters of the disassembly of the current instruction are written to the buffer,
and the result is the content of the buffer afterwards; a failed decode is
propagated and nothing is written. -/
def mcu_display_current_instruction (mcu : Handle) (buffer : List Int) (size : Nat)
    (w : World) : Except Error (List Int) × World :=
  let w1 := w.record (.mcu_display_current_instruction mcu size)
  match w1.arch.decode (w1.machines mcu).memory (w1.machines mcu).programCounter with
  | .ok instruction =>
    (.ok (store buffer (((w1.arch.disassemble instruction).take size).map toChar)), w1)
  | .error e => (.error e, w1)

/-- Modelled from the spec: `void mcu_load_file(void* mcu, const char* filename)`,
whose body is not in the sources: the loader applied to the image read under the
name.  A loader failure is reported as the result of the call; nothing of the image is
installed and the machine stays as it was. -/
def mcu_load_file (mcu : Handle) (filename : String) (w : World) :
    Except Error Unit × World :=
  let w1 := w.record (.mcu_load_file mcu filename)
  match Loader.load w1.arch (w1.files filename) (w1.machines mcu) with
  | .ok m => (.ok (), w1.setMachine mcu m)
  | .error e => (.error e, w1)

/-- Modelled from the spec: `size_t mcu_get_memory_size(void* mcu)`, whose body is not
in the sources. -/
def mcu_get_memory_size (mcu : Handle) (w : World) : Nat × World :=
  let w1 := w.record (.mcu_get_memory_size mcu)
  ((w1.machines mcu).memory.length, w1)

/-- Modelled from the spec: `void mcu_get_memory_data(void* mcu, const char* buffer,
size_t size)`, whose body is not in the sources: the first `size` bytes of the memory
bank are written to the caller buffer.  The result is the content of the buffer
afterwards. -/
def mcu_get_memory_data (mcu : Handle) (buffer : List Int) (size : Nat) (w : World) :
    List Int × World :=
  let w1 := w.record (.mcu_get_memory_data mcu size)
  (store buffer (((w1.machines mcu).memory.take size).map toChar), w1)

/-- Modelled from the spec: `unsigned char mcu_get_flags(void* mcu)`, whose body is
not in the sources. -/
def mcu_get_flags (mcu : Handle) (w : World) : Nat × World :=
  let w1 := w.record (.mcu_get_flags mcu)
  ((w1.machines mcu).flags % 256, w1)

/-- Modelled from the spec: `void mcu_set_flags(void* mcu, unsigned char flags)`,
whose body is not in the sources; the write is unchecked. -/
def mcu_set_flags (mcu : Handle) (flags : Nat) (w : World) : Unit × World :=
  let w1 := w.record (.mcu_set_flags mcu flags)
  ((), w1.setMachine mcu { w1.machines mcu with flags := flags % 256 })

/-! ## The class `McuWrapper` -/

/-- The wrapper object: its only member is the handle given to the constructor
`McuWrapper::McuWrapper(void* mcu) : mcu(mcu) {}`. -/
structure McuWrapper where
  mcu : Handle
  deriving DecidableEq

namespace McuWrapper

/-- The method `void McuWrapper::step() const`: its body is the one backend call,
with no handler around it, so the call ends as the backend call ends. -/
def step (self : McuWrapper) (w : World) : Except Error Unit × World :=
  mcu_step self.mcu w

/-- The method `void McuWrapper::getRegisterArray(const unsigned char* buffer) const`. -/
def getRegisterArray (self : McuWrapper) (buffer : List Nat) (w : World) :
    List Nat × World :=
  mcu_get_register_array self.mcu buffer w

/-- The method `void McuWrapper::setRegisterArray(const unsigned char* buffer) const`. -/
def setRegisterArray (self : McuWrapper) (buffer : List Nat) (w : World) : Unit × World :=
  mcu_set_register_array self.mcu buffer w

/-- The method `void McuWrapper::setRegister(char registerId, char value) const`: its
body is the one backend call, with no handler around it. -/
def setRegister (self : McuWrapper) (registerId value : Int) (w : World) :
    Except Error Unit × World :=
  mcu_set_register self.mcu registerId value w

/-- The method `short McuWrapper::getProgramCounter() const`. -/
def getProgramCounter (self : McuWrapper) (w : World) : Int × World :=
  mcu_get_program_counter self.mcu w

/-- The method `void McuWrapper::setProgramCounter(short value) const`. -/
def setProgramCounter (self : McuWrapper) (value : Int) (w : World) : Unit × World :=
  mcu_set_program_counter self.mcu value w

/-- The method `short McuWrapper::getStackPointer() const`. -/
def getStackPointer (self : McuWrapper) (w : World) : Int × World :=
  mcu_get_stack_pointer self.mcu w

/-- The method `short McuWrapper::getCurrentInstruction() const`. -/
def getCurrentInstruction (self : McuWrapper) (w : World) : Except Error Int × World :=
  mcu_get_current_instruction self.mcu w

/-- The method `void McuWrapper::displayCurrentInstruction(const char* buffer,
std::size_t size) const`. -/
def displayCurrentInstruction (self : McuWrapper) (buffer : List Int) (size : Nat)
    (w : World) : Except Error (List Int) × World :=
  mcu_display_current_instruction self.mcu buffer size w

/-- The method `void McuWrapper::getMemoryBank(std::vector<char>& buffer) const`: the
size is queried, the vector resized to it, and the data read with that size.  The
result is the vector afterwards. -/
def getMemoryBank (self : McuWrapper) (buffer : List Int) (w : World) : List Int × World :=
  let sized := mcu_get_memory_size self.mcu w
  let buf_size := sized.1
  let resized := resize buffer buf_size
  mcu_get_memory_data self.mcu resized buf_size sized.2

/-- The method `unsigned char McuWrapper::getFlags() const`. -/
def getFlags (self : McuWrapper) (w : World) : Nat × World :=
  mcu_get_flags self.mcu w

/-- The method `void McuWrapper::loadFile(const char* filename) const`: its body is
the one backend call, with no handler around it. -/
def loadFile (self : McuWrapper) (filename : String) (w : World) :
    Except Error Unit × World :=
  mcu_load_file self.mcu filename w

end McuWrapper

/-- One call of a method of `McuWrapper`, with its arguments: the twelve methods
defined in `McuWrapper.cpp`. -/
inductive WrapperCall
  | step
  | getRegisterArray (buffer : List Nat)
  | setRegisterArray (buffer : List Nat)
  | setRegister (registerId value : Int)
  | getProgramCounter
  | setProgramCounter (value : Int)
  | getStackPointer
  | getCurrentInstruction
  | displayCurrentInstruction (buffer : List Int) (size : Nat)
  | getMemoryBank (buffer : List Int)
  | getFlags
  | loadFile (filename : String)
  deriving DecidableEq

/-- The world after the call `c` on the wrapper `self`. -/
def WrapperCall.run (self : McuWrapper) (c : WrapperCall) (w : World) : World :=
  match c with
  | .step => (self.step w).2
  | .getRegisterArray buffer => (self.getRegisterArray buffer w).2
  | .setRegisterArray buffer => (self.setRegisterArray buffer w).2
  | .setRegister registerId value => (self.setRegister registerId value w).2
  | .getProgramCounter => (self.getProgramCounter w).2
  | .setProgramCounter value => (self.setProgramCounter value w).2
  | .getStackPointer => (self.getStackPointer w).2
  | .getCurrentInstruction => (self.getCurrentInstruction w).2
  | .displayCurrentInstruction buffer size => (self.displayCurrentInstruction buffer size w).2
  | .getMemoryBank buffer => (self.getMemoryBank buffer w).2
  | .getFlags => (self.getFlags w).2
  | .loadFile filename => (self.loadFile filename w).2

/-- A small architecture for concrete runs: one instruction, a single byte long, that
only advances the program counter; decoding beyond the memory is a truncated
instruction. -/
def sampleArch : Architecture :=
  { decode := fun memory pc =>
      if pc < memory.length then .ok { opcode := 0, operands := [], length := 1 }
      else .error .TruncatedInstruction
    execute := fun instruction m =>
      .ok { m with programCounter := m.programCounter + instruction.length }
    disassemble := fun _ => [110, 111, 112]
    origin := 0
    topOfStack := 3 }

/-- A machine with 32 zeroed registers and the four memory bytes 12, 148, 0, 255. -/
def sampleMachine : MachineState :=
  { registers := List.replicate 32 0
    programCounter := 0
    stackPointer := 3
    flags := 0
    memory := [12, 148, 0, 255]
    addressable := by decide }

/-- A world with the sample machine behind every handle, a two-byte image
`"loop.bin"`, a five-byte image `"huge.bin"`, and no other file. -/
def sampleWorld : World :=
  { arch := sampleArch
    machines := fun _ => sampleMachine
    files := fun name =>
      if name = "loop.bin" then some [7, 9]
      else if name = "huge.bin" then some [1, 2, 3, 4, 5]
      else none
    calls := [] }

end Avogadro

/-! ## The example program: proofs -/

namespace ForLoop

set_option maxRecDepth 100000

/-- More fuel never changes a result that was already reached. -/
theorem forLoop_fuel_succ (fuel : Nat) :
    ∀ (s : Locals) (r : List Locals × Locals),
      forLoop fuel s = some r → forLoop (fuel + 1) s = some r := by
  induction fuel with
  | zero => intro s r h; simp [forLoop] at h
  | succ n ih =>
    intro s r h
    rw [forLoop] at h
    rw [forLoop]
    by_cases hi : s.i < 100
    · simp only [hi, if_true] at h ⊢
      cases hrec : forLoop n (body s) with
      | none => simp [hrec] at h
      | some q =>
        rw [hrec] at h
        rw [ih (body s) q hrec]
        exact h
    · simp only [hi, if_false] at h ⊢
      exact h

theorem forLoop_fuel_le (s : Locals) (r : List Locals × Locals) (fuel fuel2 : Nat)
    (hle : fuel ≤ fuel2) (h : forLoop fuel s = some r) : forLoop fuel2 s = some r := by
  induction hle with
  | refl => exact h
  | step _ ih => exact forLoop_fuel_succ _ s r ih

/-- Twice the sum `0 + 1 + ... + (k - 1)` is `k * (k - 1)`. -/
theorem sum_range_twice (k : Nat) : (List.range k).sum * 2 = k * (k - 1) := by
  induction k with
  | zero => simp
  | succ n ih =>
    rw [List.range_succ, List.sum_append, List.sum_singleton, Nat.add_mul, ih]
    cases n with
    | zero => simp
    | succ m => simp only [Nat.add_sub_cancel]; ring

theorem sum_range_gauss (k : Nat) : (List.range k).sum = k * (k - 1) / 2 := by
  have h := sum_range_twice k
  omega

/-- Appending one more pass to `k` passes. -/
theorem afterIterations_succ (k : Nat) :
    ∀ s : Locals, afterIterations (k + 1) s =
      (afterIterations k s).bind (fun t => if t.i < 100 then some (body t) else none) := by
  induction k with
  | zero => intro s; simp [afterIterations]
  | succ n ih =>
    intro s
    rw [afterIterations]
    by_cases hi : s.i < 100
    · simp only [hi, if_true]
      rw [ih (body s)]
      conv_rhs => rw [afterIterations]
      simp only [hi, if_true]
    · simp only [hi, if_false]
      conv_rhs => rw [afterIterations]
      simp [hi]

/-- The invariant in its summation form. -/
theorem afterIterations_start (k : Nat) (hk : k ≤ 100) :
    afterIterations k start = some { a := (42 + (List.range k).sum) % 256, i := k } := by
  induction k with
  | zero => simp [afterIterations, start, ucharRange]
  | succ n ih =>
    have hn : n < 100 := by omega
    rw [afterIterations_succ, ih (by omega)]
    have hs : (List.range (n + 1)).sum = (List.range n).sum + n := by
      rw [List.range_succ, List.sum_append, List.sum_singleton]
    simp only [Option.some_bind, hn, if_true, body, sumInt, ucharRange, hs]
    congr 2
    · omega
    · omega

/-- The complete run of the loop from the initial locals. -/
theorem forLoop_start :
    forLoop 101 start =
      some ((List.range 100).map (fun k => { a := (42 + k * (k - 1) / 2) % 256, i := k }),
        { a := 128, i := 100 }) := by
  decide

theorem forLoop_start_short : forLoop 100 start = none := by
  decide

/-- The entered locals and the exit locals of a finished run are the locals after
`0, 1, 2, ...` passes. -/
theorem forLoop_afterIterations (fuel : Nat) :
    ∀ (s : Locals) (r : List Locals × Locals), forLoop fuel s = some r →
      ∀ k, k ≤ r.1.length → afterIterations k s = (r.1 ++ [r.2])[k]? := by
  induction fuel with
  | zero => intro s r h; simp [forLoop] at h
  | succ n ih =>
    intro s r h k hk
    rw [forLoop] at h
    by_cases hi : s.i < 100
    · simp only [hi, if_true] at h
      cases hrec : forLoop n (body s) with
      | none => simp [hrec] at h
      | some q =>
        rw [hrec] at h
        simp only [Option.map_some', Option.some.injEq] at h
        subst h
        cases k with
        | zero => simp [afterIterations]
        | succ j =>
          simp only [List.length_cons, Nat.add_le_add_iff_right] at hk
          rw [afterIterations]
          simp only [hi, if_true]
          rw [ih (body s) q hrec j hk]
          simp
    · simp only [hi, if_false, Option.some.injEq] at h
      subst h
      simp only [List.length_nil, Nat.le_zero_eq] at hk
      subst hk
      simp [afterIterations]

/-- C1: with enough fuel for the 101 evaluations of the loop test, `main` returns
`(42 + 0 + 1 + ... + 99) mod 256`, and that number is 128. -/
theorem main_returns_modular_sum (fuel : Nat) (h : 101 ≤ fuel) :
    main fuel = some ((42 + (List.range 100).sum) % 256) ∧
      (42 + (List.range 100).sum) % 256 = 128 := by
  have hrun := forLoop_fuel_le start _ 101 fuel h forLoop_start
  have hsum : (42 + (List.range 100).sum) % 256 = 128 := by
    rw [sum_range_gauss]
  refine ⟨?_, hsum⟩
  rw [hsum]
  simp [main, hrun]

theorem main_returns_modular_sum_witness :
    101 ≤ 101 ∧ (main 101 = some ((42 + (List.range 100).sum) % 256) ∧
      (42 + (List.range 100).sum) % 256 = 128) :=
  ⟨by decide, main_returns_modular_sum 101 (by decide)⟩

/-- C9: the loop terminates (any fuel of at least 101 test evaluations yields a
result, 100 do not suffice), its body is entered exactly 100 times, with `i`
equal to 0, 1, ..., 99 in this order, the increment `++i` never wraps, and the
loop is left with `i = 100`. -/
theorem forLoop_hundred_passes (fuel : Nat) (h : 101 ≤ fuel) :
    ∃ r : List Locals × Locals, forLoop fuel start = some r ∧
      r.1.length = 100 ∧
      r.1.map (fun s => s.i) = List.range 100 ∧
      (∀ s ∈ r.1, s.i < 100 ∧ s.i + 1 < ucharRange ∧ (body s).i = s.i + 1) ∧
      r.2.i = 100 ∧
      forLoop 100 start = none := by
  have hrun := forLoop_fuel_le start _ 101 fuel h forLoop_start
  refine ⟨_, hrun, ?_, ?_, ?_, rfl, forLoop_start_short⟩
  · simp
  · simp [List.map_map, Function.comp_def]
  · intro s hs
    simp only [List.mem_map, List.mem_range] at hs
    obtain ⟨k, hk, rfl⟩ := hs
    simp only [body, ucharRange]
    omega

theorem forLoop_hundred_passes_witness :
    101 ≤ 101 ∧ ∃ r : List Locals × Locals, forLoop 101 start = some r ∧
      r.1.length = 100 ∧
      r.1.map (fun s => s.i) = List.range 100 ∧
      (∀ s ∈ r.1, s.i < 100 ∧ s.i + 1 < ucharRange ∧ (body s).i = s.i + 1) ∧
      r.2.i = 100 ∧
      forLoop 100 start = none :=
  ⟨by decide, forLoop_hundred_passes 101 (by decide)⟩

/-- C10: loop invariant.  For every `k ≤ 100`, after `k` passes the locals are
`a = (42 + k * (k - 1) / 2) mod 256` and `i = k`; this is the state found at
position `k` of every finished run of the loop; the value of `a` is the unbounded
sum `42 + 0 + ... + (k - 1)` reduced modulo 256; and in each pass made so far the
`int` sum `a + i` was at most `255 + 99 = 354`, with `i` below 100. -/
theorem loop_invariant (k : Nat) (hk : k ≤ 100) :
    afterIterations k start = some { a := (42 + k * (k - 1) / 2) % 256, i := k } ∧
      (∀ (fuel : Nat) (r : List Locals × Locals), forLoop fuel start = some r →
        (r.1 ++ [r.2])[k]? = some { a := (42 + k * (k - 1) / 2) % 256, i := k }) ∧
      (42 + k * (k - 1) / 2) % 256 = (42 + (List.range k).sum) % 256 ∧
      (∀ j, j < k → ∃ s, afterIterations j start = some s ∧ s.i = j ∧
        sumInt s ≤ 255 + 99 ∧ sumInt s = (42 + (List.range j).sum) % 256 + j ∧
        (body s).a = (42 + (List.range (j + 1)).sum) % 256) := by
  have hinv := afterIterations_start k hk
  rw [sum_range_gauss] at hinv
  refine ⟨hinv, ?_, ?_, ?_⟩
  · intro fuel r hr
    have hlen : r.1.length = 100 := by
      have h101 : 101 ≤ fuel := by
        by_contra hlt
        have hle : fuel ≤ 100 := by omega
        have := forLoop_fuel_le start r fuel 100 hle hr
        rw [forLoop_start_short] at this
        exact Option.noConfusion this
      have := forLoop_fuel_le start _ 101 fuel h101 forLoop_start
      rw [hr] at this
      simp only [Option.some.injEq] at this
      rw [this]
      simp
    rw [← forLoop_afterIterations fuel start r hr k (by omega)]
    exact hinv
  · rw [sum_range_gauss]
  · intro j hj
    refine ⟨_, afterIterations_start j (by omega), rfl, ?_, rfl, ?_⟩
    · simp only [sumInt]
      omega
    · have hs : (List.range (j + 1)).sum = (List.range j).sum + j := by
        rw [List.range_succ, List.sum_append, List.sum_singleton]
      simp only [body, sumInt, ucharRange, hs]
      omega

theorem loop_invariant_witness :
    (100 ≤ 100) ∧
      afterIterations 100 start = some { a := (42 + 100 * (100 - 1) / 2) % 256, i := 100 } :=
  ⟨by decide, (loop_invariant 100 (by decide)).1⟩

end ForLoop

/-! ## The wrapper: proofs -/

namespace Avogadro

theorem toUChar_toChar (n : Nat) : toUChar (toChar n) = n % 256 := by
  unfold toUChar toChar
  split <;> omega

/-- C4: a call of `step` makes exactly one backend call, `mcu_step` on the handle the
wrapper was constructed with, and no other; the machine behind that handle becomes the
result of one decode-execute cycle, decoding at the program counter and executing the
decoded instruction once (when one of the two fails it stays as it was); no other
machine, and no file, is touched. -/
theorem step_one_instruction (mcu : Handle) (w : World) :
    ((McuWrapper.mk mcu).step w).2.calls = w.calls ++ [.mcu_step mcu] ∧
      (∀ instruction m,
        w.arch.decode (w.machines mcu).memory (w.machines mcu).programCounter
            = .ok instruction →
          w.arch.execute instruction (w.machines mcu) = .ok m →
            ((McuWrapper.mk mcu).step w).2.machines mcu = m) ∧
      (∀ e, StepController.step w.arch (w.machines mcu) = .error e →
        ((McuWrapper.mk mcu).step w).2.machines mcu = w.machines mcu) ∧
      (∀ h, h ≠ mcu → ((McuWrapper.mk mcu).step w).2.machines h = w.machines h) ∧
      ((McuWrapper.mk mcu).step w).2.files = w.files := by
  refine ⟨?_, ?_, ?_, ?_, ?_⟩
  · simp only [McuWrapper.step, mcu_step, World.record]
    split <;> rfl
  · intro instruction m hdec hexec
    have hstep : StepController.step w.arch (w.machines mcu) = .ok m := by
      simp only [StepController.step, hdec, hexec]
    simp only [McuWrapper.step, mcu_step, World.record, hstep, World.setMachine, if_true]
  · intro e he
    simp only [McuWrapper.step, mcu_step, World.record, he]
  · intro h hne
    simp only [McuWrapper.step, mcu_step, World.record]
    split
    · simp only [World.setMachine, hne, if_false]
    · rfl
  · simp only [McuWrapper.step, mcu_step, World.record]
    split <;> rfl

theorem step_one_instruction_witness :
    ((McuWrapper.mk 0).step sampleWorld).2.calls = sampleWorld.calls ++ [.mcu_step 0] ∧
      ((McuWrapper.mk 0).step sampleWorld).2.machines 0 =
        { sampleMachine with programCounter := 1 } :=
  ⟨(step_one_instruction 0 sampleWorld).1,
    (step_one_instruction 0 sampleWorld).2.1 { opcode := 0, operands := [], length := 1 }
      { sampleMachine with programCounter := 1 } rfl rfl⟩

theorem resize_length (buffer : List Int) (n : Nat) : (resize buffer n).length = n := by
  simp only [resize, List.length_append, List.length_take, List.length_replicate]
  omega

/-- C7: for every machine and every caller vector, after `getMemoryBank` the vector
has as many elements as `mcu_get_memory_size` returns, it holds exactly what
`mcu_get_memory_data` delivers for that size, which is the whole memory bank byte for
byte, it does not depend on what the vector held before, and the two backend calls
made are the size query and the data read with the size the vector was resized to. -/
theorem getMemoryBank_full (self : McuWrapper) (w : World) (buffer : List Int) :
    (self.getMemoryBank buffer w).1.length = (mcu_get_memory_size self.mcu w).1 ∧
      (self.getMemoryBank buffer w).1 =
        (mcu_get_memory_data self.mcu (resize buffer (mcu_get_memory_size self.mcu w).1)
          (mcu_get_memory_size self.mcu w).1 (mcu_get_memory_size self.mcu w).2).1 ∧
      (self.getMemoryBank buffer w).1 = (w.machines self.mcu).memory.map toChar ∧
      (∀ k, k < (w.machines self.mcu).memory.length →
        ((self.getMemoryBank buffer w).1[k]?).map toUChar =
          ((w.machines self.mcu).memory[k]?).map (fun b => b % 256)) ∧
      (∀ other : List Int,
        (self.getMemoryBank other w).1 = (self.getMemoryBank buffer w).1) ∧
      (resize buffer (mcu_get_memory_size self.mcu w).1).length =
        (mcu_get_memory_size self.mcu w).1 ∧
      (self.getMemoryBank buffer w).2.calls =
        w.calls ++ [.mcu_get_memory_size self.mcu,
          .mcu_get_memory_data self.mcu
            (resize buffer (mcu_get_memory_size self.mcu w).1).length] ∧
      (self.getMemoryBank buffer w).2.machines = w.machines := by
  have hall : ∀ b : List Int,
      (self.getMemoryBank b w).1 = (w.machines self.mcu).memory.map toChar := by
    intro b
    simp only [McuWrapper.getMemoryBank, mcu_get_memory_data, mcu_get_memory_size,
      World.record, store, List.take_length, List.length_map]
    rw [List.drop_of_length_le (by rw [resize_length]), List.append_nil]
  refine ⟨?_, rfl, hall buffer, ?_, ?_, resize_length _ _, ?_, rfl⟩
  · rw [hall buffer]
    simp [mcu_get_memory_size, World.record]
  · intro k hk
    rw [hall buffer]
    simp only [List.getElem?_map, Option.map_map]
    cases (w.machines self.mcu).memory[k]? with
    | none => rfl
    | some b => simp [toUChar_toChar]
  · intro other
    rw [hall other, hall buffer]
  · rw [resize_length]
    simp [McuWrapper.getMemoryBank, mcu_get_memory_data, mcu_get_memory_size, World.record]

theorem World.setMachine_calls (w : World) (mcu : Handle) (m : MachineState) :
    (w.setMachine mcu m).calls = w.calls := rfl

theorem World.setMachine_same (w : World) (mcu : Handle) (m : MachineState) :
    (w.setMachine mcu m).machines mcu = m := by
  simp only [World.setMachine, if_true]

/-- The backend calls a wrapper call adds to the record never include
`mcu_set_flags`. -/
theorem WrapperCall.run_no_set_flags (self : McuWrapper) (c : WrapperCall) (w : World)
    (mcu : Handle) (f : Nat)
    (h : BackendCall.mcu_set_flags mcu f ∈ (c.run self w).calls) :
    BackendCall.mcu_set_flags mcu f ∈ w.calls := by
  cases c with
  | step =>
    simp only [WrapperCall.run, McuWrapper.step, mcu_step, World.record] at h
    split at h <;> simpa [World.setMachine_calls] using h
  | getRegisterArray b =>
    simpa [WrapperCall.run, McuWrapper.getRegisterArray, mcu_get_register_array,
      World.record] using h
  | setRegisterArray b =>
    simpa [WrapperCall.run, McuWrapper.setRegisterArray, mcu_set_register_array,
      World.record, World.setMachine_calls] using h
  | setRegister r v =>
    simp only [WrapperCall.run, McuWrapper.setRegister, mcu_set_register, World.record] at h
    split at h <;> simpa [World.setMachine_calls] using h
  | getProgramCounter =>
    simpa [WrapperCall.run, McuWrapper.getProgramCounter, mcu_get_program_counter,
      World.record] using h
  | setProgramCounter v =>
    simpa [WrapperCall.run, McuWrapper.setProgramCounter, mcu_set_program_counter,
      World.record, World.setMachine_calls] using h
  | getStackPointer =>
    simpa [WrapperCall.run, McuWrapper.getStackPointer, mcu_get_stack_pointer,
      World.record] using h
  | getCurrentInstruction =>
    simp only [WrapperCall.run, McuWrapper.getCurrentInstruction,
      mcu_get_current_instruction, World.record] at h
    split at h <;> simpa using h
  | displayCurrentInstruction b n =>
    simp only [WrapperCall.run, McuWrapper.displayCurrentInstruction,
      mcu_display_current_instruction, World.record] at h
    split at h <;> simpa using h
  | getMemoryBank b =>
    simpa [WrapperCall.run, McuWrapper.getMemoryBank, mcu_get_memory_data,
      mcu_get_memory_size, World.record] using h
  | getFlags =>
    simpa [WrapperCall.run, McuWrapper.getFlags, mcu_get_flags, World.record] using h
  | loadFile name =>
    simp only [WrapperCall.run, McuWrapper.loadFile, mcu_load_file, World.record] at h
    split at h <;> simpa [World.setMachine_calls] using h

/-- Every wrapper call other than `step` leaves the flags byte of the wrapped machine
as it was. -/
theorem WrapperCall.run_flags (self : McuWrapper) (c : WrapperCall) (w : World)
    (hc : c ≠ .step) :
    ((c.run self w).machines self.mcu).flags = (w.machines self.mcu).flags := by
  cases c with
  | step => exact absurd rfl hc
  | getRegisterArray b => rfl
  | setRegisterArray b =>
    simp only [WrapperCall.run, McuWrapper.setRegisterArray, mcu_set_register_array,
      World.record, World.setMachine_same, MachineState.writeRegisters]
  | setRegister r v =>
    simp only [WrapperCall.run, McuWrapper.setRegister, mcu_set_register, World.record,
      MachineState.writeRegister]
    split
    · rename_i m hm
      split at hm
      · injection hm with hm
        subst hm
        simp only [World.setMachine_same]
      · exact Except.noConfusion hm
    · rfl
  | getProgramCounter => rfl
  | setProgramCounter v =>
    simp only [WrapperCall.run, McuWrapper.setProgramCounter, mcu_set_program_counter,
      World.record, World.setMachine_same]
  | getStackPointer => rfl
  | getCurrentInstruction =>
    simp only [WrapperCall.run, McuWrapper.getCurrentInstruction,
      mcu_get_current_instruction, World.record]
    split <;> rfl
  | displayCurrentInstruction b n =>
    simp only [WrapperCall.run, McuWrapper.displayCurrentInstruction,
      mcu_display_current_instruction, World.record]
    split <;> rfl
  | getMemoryBank b => rfl
  | getFlags => rfl
  | loadFile name =>
    simp only [WrapperCall.run, McuWrapper.loadFile, mcu_load_file, World.record,
      Loader.load]
    split
    · rename_i m hm
      split at hm
      · exact Except.noConfusion hm
      · split at hm
        · injection hm with hm
          subst hm
          simp only [World.setMachine_same]
        · exact Except.noConfusion hm
    · rfl

theorem getMemoryBank_full_witness :
    (McuWrapper.getMemoryBank ⟨0⟩ [9, 9, 9, 9, 9, 9] sampleWorld).1 = [12, -108, 0, -1] ∧
      (McuWrapper.getMemoryBank ⟨0⟩ [9, 9, 9, 9, 9, 9] sampleWorld).2.calls =
        [.mcu_get_memory_size 0, .mcu_get_memory_data 0 4] :=
  ⟨(getMemoryBank_full ⟨0⟩ sampleWorld [9, 9, 9, 9, 9, 9]).2.2.1,
    (getMemoryBank_full ⟨0⟩ sampleWorld [9, 9, 9, 9, 9, 9]).2.2.2.2.2.2.1⟩

/-- C8 as stated fails: no method of the wrapper delegates to `mcu_set_flags`.
Whatever method is called on the sample world, with whatever arguments, no
`mcu_set_flags` call is made and the flags byte of the machine keeps its value 0, so
for `f = 1` no wrapper operation writes `f`. -/
theorem wrapper_never_sets_flags :
    ¬ (∃ (c : WrapperCall) (mcu : Handle) (f : Nat),
        BackendCall.mcu_set_flags mcu f ∈ (c.run ⟨0⟩ sampleWorld).calls) ∧
      ¬ (∃ c : WrapperCall,
        (McuWrapper.getFlags ⟨0⟩ (c.run ⟨0⟩ sampleWorld)).1 = 1) := by
  constructor
  · rintro ⟨c, mcu, f, h⟩
    have h2 := WrapperCall.run_no_set_flags ⟨0⟩ c sampleWorld mcu f h
    simp [sampleWorld] at h2
  · rintro ⟨c, h⟩
    by_cases hc : c = .step
    · subst hc
      revert h
      decide
    · have hflags := WrapperCall.run_flags ⟨0⟩ c sampleWorld hc
      have h0 : ((c.run ⟨0⟩ sampleWorld).machines 0).flags = 0 := hflags
      simp only [McuWrapper.getFlags, mcu_get_flags, World.record, h0] at h
      exact absurd h (by decide)

/-- C8 amended: the wrapper offers reading of the flags byte only.  `getFlags`
delegates to `mcu_get_flags` and returns the flags byte of the machine; no wrapper
method calls `mcu_set_flags`, which the backend interface declares; and for every
8-bit `f`, once the backend call `mcu_set_flags` has written `f`, a following
`getFlags` returns exactly `f`. -/
theorem getFlags_after_mcu_set_flags (self : McuWrapper) (w : World) (f : Nat)
    (hf : f < 256) :
    (self.getFlags (mcu_set_flags self.mcu f w).2).1 = f ∧
      (self.getFlags w).1 = (w.machines self.mcu).flags % 256 ∧
      (self.getFlags w).2.calls = w.calls ++ [.mcu_get_flags self.mcu] ∧
      (∀ (c : WrapperCall) (mcu : Handle) (g : Nat),
        BackendCall.mcu_set_flags mcu g ∈ (c.run self w).calls →
          BackendCall.mcu_set_flags mcu g ∈ w.calls) := by
  refine ⟨?_, rfl, rfl, fun c mcu g h => WrapperCall.run_no_set_flags self c w mcu g h⟩
  simp only [McuWrapper.getFlags, mcu_get_flags, mcu_set_flags, World.record,
    World.setMachine_same, Nat.mod_mod, Nat.mod_eq_of_lt hf]

theorem getFlags_after_mcu_set_flags_witness :
    (131 < 256) ∧ (McuWrapper.getFlags ⟨0⟩ (mcu_set_flags 0 131 sampleWorld).2).1 = 131 :=
  ⟨by decide, (getFlags_after_mcu_set_flags ⟨0⟩ sampleWorld 131 (by decide)).1⟩

end Avogadro
